import Mathlib

/-!
Verification development for the delta-resolution and migration-journal core
of `drizzle-kit` (`src/cli/commands/migrate.ts`).

The resolvers (`promptColumnsConflicts`, `promptNamedWithSchemasConflict`,
`promptSchemasConflict`) are interactive loops over JavaScript arrays.  They
are embedded here as pure recursive functions over `List`, parameterised by an
oracle (the `render` prompt).  JavaScript's `process.exit(1)` on an aborted
prompt is modelled by an `Option` result: `none` is the non-zero-exit outcome.
Each resolver also returns the list of prompts it issued (candidate together
with the pool of still-unconsumed missing entities offered as rename options),
so that theorems can speak about which prompts occurred.

JavaScript object identity: `Array.prototype.indexOf` compares with `===`.
Two structurally equal objects at different heap addresses are distinct for
`===`, so every entity record carries an `objId : Nat` field modelling its
heap address; Lean's structural equality on the full record (including
`objId`) then coincides with `===` as long as distinct allocations get
distinct `objId`s.
-/

/-- An entity of a namespace-free category (`type Named` in the source),
together with an `objId` modelling JavaScript reference identity. -/
structure Named where
  objId : Nat
  name : String
deriving DecidableEq, Repr

/-- An entity of a namespaced category (`type NamedWithSchema` in the source),
together with an `objId` modelling JavaScript reference identity. -/
structure NamedWithSchema where
  objId : Nat
  name : String
  schema : String
deriving DecidableEq, Repr

/-- The oracle's reply to one prompt: the candidate is a fresh creation, a
rename/move from an existing missing entity, or an abort of the whole
resolution (the `status === 'aborted'` branch). -/
inductive Answer (T : Type) where
  | create : Answer T
  | rename : T → Answer T
  | abort : Answer T
deriving DecidableEq, Repr

/-- Whether an answer is a rename decision. -/
def Answer.isRename {T : Type} : Answer T → Bool
  | .rename _ => true
  | _ => false

/-- An oracle over namespaced entities: given the current candidate and the
current pool of still-unconsumed missing entities (the rename options offered,
in pool order), produce an answer.  Models the `render(new ResolveSelect(...))`
call. -/
abbrev OracleWS := NamedWithSchema → List NamedWithSchema → Answer NamedWithSchema

/-- An oracle over namespace-free entities. -/
abbrev OracleN := Named → List Named → Answer Named

/-- One issued prompt: the candidate and the pool of missing entities offered
as rename options (the source offers `[created, ...pool.map(it => {from: it,
to: created})]`). -/
abbrev PromptWS := NamedWithSchema × List NamedWithSchema

/-- One issued prompt over namespace-free entities. -/
abbrev PromptN := Named × List Named

/-- A `moved` record `{name, schemaFrom, schemaTo}` as pushed by
`promptNamedWithSchemasConflict`. -/
structure MovedRec where
  name : String
  schemaFrom : String
  schemaTo : String
deriving DecidableEq, Repr

/-- Result record of `promptNamedWithSchemasConflict`. -/
structure NwsRes where
  created : List NamedWithSchema
  renamed : List (NamedWithSchema × NamedWithSchema)
  moved : List MovedRec
  deleted : List NamedWithSchema
deriving DecidableEq, Repr

/-- Result record of `promptColumnsConflicts` and `promptSchemasConflict`. -/
structure FlatRes where
  created : List Named
  renamed : List (Named × Named)
  deleted : List Named
deriving DecidableEq, Repr

/-- JavaScript `s || 'public'` on a string: the empty string is falsy. -/
def normSchema (s : String) : String :=
  if s = "" then ("public") else s

/-- The `isRenamePromptItem(data)` branch body of
`promptNamedWithSchemasConflict` (migrate.ts lines 605-615), as an update of
the eventual result record: `data` (here the pair of `f = data.from` and
`c = data.to`, where `to` is always the current candidate) is pushed to
`renamed` only when the names differ, and a `MovedRec` with `|| 'public'`
normalisation is pushed to `moved` only when the raw `schema` strings
differ. -/
def nwsRenameUpd (f c : NamedWithSchema) (r : NwsRes) : NwsRes :=
  let r1 := if f.name ≠ c.name
    then { r with renamed := (f, c) :: r.renamed } else r
  if f.schema ≠ c.schema
    then { r1 with
            moved := ⟨f.name, normSchema f.schema, normSchema c.schema⟩ :: r1.moved }
    else r1

/-- The `do ... while (index < newItems.length)` loop of
`promptNamedWithSchemasConflict` (migrate.ts lines 571-632).  First argument
of the recursion is the remaining suffix of `newItems`, second is the current
`leftMissing` pool.  A rename answer updates the result by `nwsRenameUpd` and
removes the chosen `from` object from the pool by
`delete leftMissing[leftMissing.indexOf(data.from)]` followed by
`filter(Boolean)`, which is `eraseIdx (indexOf ...)` (a no-op when `indexOf`
misses).  `process.exit(1)` on abort is the `none` result.  The function also
returns the prompts issued, in order. -/
def nwsGo (o : OracleWS) : List NamedWithSchema → List NamedWithSchema →
    Option NwsRes × List PromptWS
  | [], leftMissing => (some ⟨[], [], [], leftMissing⟩, [])
  | created :: rest, leftMissing =>
    match o created leftMissing with
    | .abort => (none, [(created, leftMissing)])
    | .create =>
      let p := nwsGo o rest leftMissing
      (p.1.map (fun r => { r with created := created :: r.created }),
       (created, leftMissing) :: p.2)
    | .rename f =>
      let p := nwsGo o rest (leftMissing.eraseIdx (leftMissing.indexOf f))
      (p.1.map (nwsRenameUpd f created),
       (created, leftMissing) :: p.2)

/-- `promptNamedWithSchemasConflict` (migrate.ts lines 546-634): fast path
returning immediately (with no prompt) when either input list is empty,
otherwise the loop `nwsGo`.  The `entity` display label does not influence the
computation. -/
def promptNamedWithSchemasConflict (o : OracleWS)
    (newItems missingItems : List NamedWithSchema) (entity : String) :
    Option NwsRes × List PromptWS :=
  if missingItems.length = 0 ∨ newItems.length = 0 then
    (some ⟨newItems, [], [], missingItems⟩, [])
  else
    nwsGo o newItems missingItems

/-- The shared `do ... while` loop of `promptColumnsConflicts` (migrate.ts
lines 496-537) and `promptSchemasConflict` (lines 651-689); the two loop
bodies are identical except for the rendered text.  A rename answer is always
pushed to `renamed` (no name comparison), and the chosen `from` object is
removed from the pool by `delete leftMissing[leftMissing.indexOf(data.from)]`
plus `filter(Boolean)`, i.e. `eraseIdx (indexOf ...)`. -/
def flatGo (o : OracleN) : List Named → List Named →
    Option FlatRes × List PromptN
  | [], leftMissing => (some ⟨[], [], leftMissing⟩, [])
  | created :: rest, leftMissing =>
    match o created leftMissing with
    | .abort => (none, [(created, leftMissing)])
    | .create =>
      let p := flatGo o rest leftMissing
      (p.1.map (fun r => { r with created := created :: r.created }),
       (created, leftMissing) :: p.2)
    | .rename f =>
      let p := flatGo o rest (leftMissing.eraseIdx (leftMissing.indexOf f))
      (p.1.map (fun r => { r with renamed := (f, created) :: r.renamed }),
       (created, leftMissing) :: p.2)

/-- `promptColumnsConflicts` (migrate.ts lines 479-544): fast path when either
list is empty, otherwise the loop.  The `tableName` display label does not
influence the computation. -/
def promptColumnsConflicts (o : OracleN) (tableName : String)
    (newColumns missingColumns : List Named) : Option FlatRes × List PromptN :=
  if newColumns.length = 0 ∨ missingColumns.length = 0 then
    (some ⟨newColumns, [], missingColumns⟩, [])
  else
    flatGo o newColumns missingColumns

/-- `promptSchemasConflict` (migrate.ts lines 636-693): fast path when either
list is empty, otherwise the same loop as `promptColumnsConflicts`. -/
def promptSchemasConflict (o : OracleN)
    (newSchemas missingSchemas : List Named) : Option FlatRes × List PromptN :=
  if missingSchemas.length = 0 ∨ newSchemas.length = 0 then
    (some ⟨newSchemas, [], missingSchemas⟩, [])
  else
    flatGo o newSchemas missingSchemas

/-- Number of rename answers the oracle gave over a list of issued prompts. -/
def renCount {T : Type} (o : T → List T → Answer T)
    (log : List (T × List T)) : Nat :=
  (log.filter (fun p => (o p.1 p.2).isRename)).length

/-- Whether some prompt in the log was answered with a rename consuming `x`. -/
def consumedIn {T : Type} [DecidableEq T] (o : T → List T → Answer T)
    (log : List (T × List T)) (x : T) : Bool :=
  log.any (fun p => o p.1 p.2 = Answer.rename x)

/-- The oracle only ever picks a rename option that was actually offered,
i.e. its `from` is (referentially) one of the current pool's objects.  This is
the contract of the `render` select list, which returns one of the items it
was given. -/
def OfferedWS (o : OracleWS) : Prop :=
  ∀ c pool f, o c pool = Answer.rename f → f ∈ pool

/-- `OfferedWS` for namespace-free oracles. -/
def OfferedN (o : OracleN) : Prop :=
  ∀ c pool f, o c pool = Answer.rename f → f ∈ pool

/-- The oracle never aborts. -/
def NoAbortWS (o : OracleWS) : Prop :=
  ∀ c pool, o c pool ≠ Answer.abort

/-- `NoAbortWS` for namespace-free oracles. -/
def NoAbortN (o : OracleN) : Prop :=
  ∀ c pool, o c pool ≠ Answer.abort

/-- The `type` option of `writeResult` (`'introspect' | 'custom' | 'none'`);
`none'` is the default "normal" kind. -/
inductive MigType where
  | introspect : MigType
  | custom : MigType
  | none' : MigType
deriving DecidableEq, Repr

/-- The statement-breakpoint marker `BREAKPOINT` of migrate.ts. -/
def BREAKPOINT : String := "--> statement-breakpoint\n"

/-- Observable effects of one `writeResult` call.  `noChanges` is the
"No schema changes, nothing to migrate" no-op report; `unitDir` is the tag of
the migration unit directory created by `mkdirSync` (if any); `snapshotFile`
is the content written to `snapshot.json`, as the pair of the serialized
current schema and the `_meta` object; `sqlFile` is the content written to
`migration.sql`; `bundleWrites` counts writes of `migrations.js`. -/
structure WriteResultOut where
  noChanges : Bool
  unitDir : Option String
  snapshotFile : Option (String × String)
  sqlFile : Option String
  bundleWrites : Nat
deriving DecidableEq, Repr

/-- `writeResult` (migrate.ts lines 697-786).  The serialized schema `cur` and
its `_meta` are opaque strings here; `tag` stands for the tag produced by the
external `prepareMigrationMetadata`.  In the `type === 'none'` branch the
source first regenerates `migrations.js` when `bundle` is set, then returns
with the no-op report if `sqlStatements` is empty; otherwise it joins the
statements with `BREAKPOINT` or a newline, wraps them in an inert comment for
`'introspect'`, replaces them by a placeholder for `'custom'`, and writes the
unit directory, `snapshot.json` and `migration.sql` (plus `migrations.js`
again when `bundle` is set). -/
def writeResult (cur meta tag : String) (sqlStatements : List String)
    (breakpoints bundle : Bool) (type : MigType) : WriteResultOut :=
  let preBundle : Nat := if type = MigType.none' ∧ bundle then 1 else 0
  if type = MigType.none' ∧ sqlStatements.length = 0 then
    ⟨true, none, none, none, preBundle⟩
  else
    let sqlDelimiter := if breakpoints then BREAKPOINT else ("\n")
    let sql0 := String.intercalate sqlDelimiter sqlStatements
    let sql1 := if type = MigType.introspect then
        "-- Current sql file was generated after introspecting the database\n-- If you want to run this migration please uncomment this code before executing migrations\n/*\n"
          ++ sql0 ++ "\n*/"
      else sql0
    let sql2 := if type = MigType.custom then
        "-- Custom SQL migration file, put you code below! --"
      else sql1
    ⟨false, some tag, some (cur, meta), some sql2,
      preBundle + (if bundle then 1 else 0)⟩

/-- Control flow of the `prepareAndMigrate*` commands around the resolvers:
`process.exit(1)` inside a resolver prevents `writeResult` from ever running.
The resolved statements are `none` exactly when some resolver aborted the
process; `writeResult` runs only on `some`. -/
def migratePipeline (resolved : Option (List String))
    (cur meta tag : String) (breakpoints bundle : Bool) (type : MigType) :
    Option WriteResultOut :=
  resolved.map (fun sql => writeResult cur meta tag sql breakpoints bundle type)

/-- JavaScript `s.slice(a, b)` on a string (for `a ≤ b`): the characters in
positions `[a, b)`. -/
def strSlice (s : String) (a b : Nat) : String :=
  ((s.toList.drop a).take (b - a)).asString

/-- Decimal value of a digit character list, `none` on any non-digit. -/
def digitsAux : List Char → Nat → Option Nat
  | [], acc => some acc
  | ch :: rest, acc =>
    if 48 ≤ ch.toNat ∧ ch.toNat ≤ 57 then
      digitsAux rest (acc * 10 + (ch.toNat - 48))
    else none

/-- A fixed-width all-digit numeral: `some` of its value when `s` consists of
exactly `n` decimal digits, else `none`. -/
def parseDigits (s : String) (n : Nat) : Option Nat :=
  if s.toList.length = n then digitsAux s.toList 0 else none

/-- Gregorian leap year. -/
def isLeapYear (y : Int) : Bool :=
  y % 4 = 0 ∧ (y % 100 ≠ 0 ∨ y % 400 = 0)

/-- Number of days of month `m` (1-12) in year `y`. -/
def daysInMonth (y : Int) (m : Nat) : Nat :=
  if m = 2 then (if isLeapYear y then 29 else 28)
  else if m = 4 ∨ m = 6 ∨ m = 9 ∨ m = 11 then 30
  else 31

/-- Days from 1970-01-01 to year `y`, month `m` (1-12), day `d` (civil
calendar). -/
def daysFromCivil (y : Int) (m d : Nat) : Int :=
  let y1 : Int := if m ≤ 2 then y - 1 else y
  let era : Int := (if 0 ≤ y1 then y1 else y1 - 399) / 400
  let yoe : Int := y1 - era * 400
  let mp : Int := (Int.ofNat m + 9) % 12
  let doy : Int := (153 * mp + 2) / 5 + (Int.ofNat d - 1)
  let doe : Int := yoe * 365 + yoe / 4 - yoe / 100 + doy
  era * 146097 + doe - 719468

/-- `timestampToMillis` (migrate.ts lines 788-797): slices the first 14
characters into `YYYY MM DD hh mm ss`, assembles the ISO string
`YYYY-MM-DDThh:mm:ss.000Z` and evaluates `+new Date(isoString)`.  ECMAScript
parsing of that assembled string is modelled directly: it yields a number of
milliseconds since the epoch when all six fields are all-digit numerals of the
right width and denote a valid date-time (month 1-12, day within the month,
time up to 23:59:59 or exactly 24:00:00), and `NaN` — modelled as `none` —
otherwise. -/
def timestampToMillis (timestamp : String) : Option Int :=
  let year := strSlice timestamp 0 4
  let month := strSlice timestamp 4 6
  let day := strSlice timestamp 6 8
  let hr := strSlice timestamp 8 10
  let mn := strSlice timestamp 10 12
  let sec := strSlice timestamp 12 14
  match parseDigits year 4, parseDigits month 2, parseDigits day 2,
      parseDigits hr 2, parseDigits mn 2, parseDigits sec 2 with
  | some y, some mo, some d, some h, some mi, some s =>
    if 1 ≤ mo ∧ mo ≤ 12 ∧ 1 ≤ d ∧ d ≤ daysInMonth (Int.ofNat y) mo ∧
        (h ≤ 23 ∨ (h = 24 ∧ mi = 0 ∧ s = 0)) ∧ mi ≤ 59 ∧ s ≤ 59 then
      some (daysFromCivil (Int.ofNat y) mo d * 86400000
        + Int.ofNat h * 3600000 + Int.ofNat mi * 60000 + Int.ofNat s * 1000)
    else none
  | _, _, _, _, _, _ => none

/-- One journal entry `{ idx, when }` of the generated `migrations.js`;
`whenMillis = none` models the `NaN` produced when the directory name's
14-character prefix does not parse. -/
structure JEntry where
  idx : Nat
  whenMillis : Option Int
deriving DecidableEq, Repr

/-- The directory filter of `embeddedMigrations`: `readdirSync(outFolder)`
modelled as a list of `(name, isDirectory)` pairs in listing order, filtered
by `lstatSync(...).isDirectory()`. -/
def migrationFolders (listing : List (String × Bool)) : List String :=
  (listing.filter (fun e => e.2)).map (fun e => e.1)

/-- The journal entries of `embeddedMigrations` (migrate.ts lines 799-823):
one entry per migration folder, in listing order, with `idx` its position and
`when` computed by `timestampToMillis(entry.slice(0, 14))`.  The generated
JavaScript text around the entries carries no further information and is not
modelled. -/
def embeddedMigrations (listing : List (String × Bool)) : List JEntry :=
  (migrationFolders listing).enum.map
    (fun p => ⟨p.1, timestampToMillis (strSlice p.2 0 14)⟩)

/-- A scripted oracle that always picks the first offered rename option, or
"create" when no option is left. -/
def oracleHeadWS : OracleWS :=
  fun _ pool =>
    match pool with
    | x :: _ => Answer.rename x
    | [] => Answer.create

/-- `oracleHeadWS` over namespace-free entities. -/
def oracleHeadN : OracleN :=
  fun _ pool =>
    match pool with
    | x :: _ => Answer.rename x
    | [] => Answer.create

/-! ### Unfolding lemmas for the resolver loops -/

theorem nwsGo_nil (o : OracleWS) (lm : List NamedWithSchema) :
    nwsGo o [] lm = (some ⟨[], [], [], lm⟩, []) := rfl

theorem nwsGo_cons_abort {o : OracleWS} {c : NamedWithSchema}
    {lm : List NamedWithSchema} (rest : List NamedWithSchema)
    (h : o c lm = Answer.abort) :
    nwsGo o (c :: rest) lm = (none, [(c, lm)]) := by
  simp [nwsGo, h]

theorem nwsGo_cons_create {o : OracleWS} {c : NamedWithSchema}
    {lm : List NamedWithSchema} (rest : List NamedWithSchema)
    (h : o c lm = Answer.create) :
    nwsGo o (c :: rest) lm =
      ((nwsGo o rest lm).1.map (fun r => { r with created := c :: r.created }),
       (c, lm) :: (nwsGo o rest lm).2) := by
  simp [nwsGo, h]

theorem nwsGo_cons_rename {o : OracleWS} {c : NamedWithSchema}
    {lm : List NamedWithSchema} {f : NamedWithSchema}
    (rest : List NamedWithSchema) (h : o c lm = Answer.rename f) :
    nwsGo o (c :: rest) lm =
      ((nwsGo o rest (lm.eraseIdx (lm.indexOf f))).1.map (nwsRenameUpd f c),
       (c, lm) :: (nwsGo o rest (lm.eraseIdx (lm.indexOf f))).2) := by
  simp [nwsGo, h]

theorem flatGo_nil (o : OracleN) (lm : List Named) :
    flatGo o [] lm = (some ⟨[], [], lm⟩, []) := rfl

theorem flatGo_cons_abort {o : OracleN} {c : Named} {lm : List Named}
    (rest : List Named) (h : o c lm = Answer.abort) :
    flatGo o (c :: rest) lm = (none, [(c, lm)]) := by
  simp [flatGo, h]

theorem flatGo_cons_create {o : OracleN} {c : Named} {lm : List Named}
    (rest : List Named) (h : o c lm = Answer.create) :
    flatGo o (c :: rest) lm =
      ((flatGo o rest lm).1.map (fun r => { r with created := c :: r.created }),
       (c, lm) :: (flatGo o rest lm).2) := by
  simp [flatGo, h]

theorem flatGo_cons_rename {o : OracleN} {c : Named} {lm : List Named}
    {f : Named} (rest : List Named) (h : o c lm = Answer.rename f) :
    flatGo o (c :: rest) lm =
      ((flatGo o rest (lm.eraseIdx (lm.indexOf f))).1.map
          (fun r => { r with renamed := (f, c) :: r.renamed }),
       (c, lm) :: (flatGo o rest (lm.eraseIdx (lm.indexOf f))).2) := by
  simp [flatGo, h]

/-! ### Facts about the rename update -/

theorem nwsRenameUpd_created (f c : NamedWithSchema) (r : NwsRes) :
    (nwsRenameUpd f c r).created = r.created := by
  unfold nwsRenameUpd
  split <;> split <;> rfl

theorem nwsRenameUpd_deleted (f c : NamedWithSchema) (r : NwsRes) :
    (nwsRenameUpd f c r).deleted = r.deleted := by
  unfold nwsRenameUpd
  split <;> split <;> rfl

theorem nwsRenameUpd_renamed (f c : NamedWithSchema) (r : NwsRes) :
    (nwsRenameUpd f c r).renamed =
      if f.name ≠ c.name then (f, c) :: r.renamed else r.renamed := by
  unfold nwsRenameUpd
  split <;> split <;> simp_all

theorem nwsRenameUpd_moved (f c : NamedWithSchema) (r : NwsRes) :
    (nwsRenameUpd f c r).moved =
      if f.schema ≠ c.schema
        then (⟨f.name, normSchema f.schema, normSchema c.schema⟩ : MovedRec) :: r.moved
        else r.moved := by
  unfold nwsRenameUpd
  split <;> split <;> simp_all

/-! ### Facts about prompt counting -/

theorem renCount_nil {T : Type} (o : T → List T → Answer T) :
    renCount o [] = 0 := rfl

theorem renCount_cons {T : Type} (o : T → List T → Answer T)
    (p : T × List T) (log : List (T × List T)) :
    renCount o (p :: log) =
      (if (o p.1 p.2).isRename then 1 else 0) + renCount o log := by
  simp only [renCount, List.filter_cons]
  split <;> simp [Nat.add_comm]

theorem consumedIn_nil {T : Type} [DecidableEq T]
    (o : T → List T → Answer T) (x : T) : consumedIn o [] x = false := rfl

theorem consumedIn_cons_create {T : Type} [DecidableEq T]
    {o : T → List T → Answer T} {c : T} {pool : List T}
    (log : List (T × List T)) (x : T) (h : o c pool = Answer.create) :
    consumedIn o ((c, pool) :: log) x = consumedIn o log x := by
  simp [consumedIn, h]

theorem consumedIn_cons_rename {T : Type} [DecidableEq T]
    {o : T → List T → Answer T} {c : T} {pool : List T} {f : T}
    (log : List (T × List T)) (x : T) (h : o c pool = Answer.rename f) :
    consumedIn o ((c, pool) :: log) x = (decide (f = x) || consumedIn o log x) := by
  simp [consumedIn, h]

/-! ### Further helper lemmas -/

theorem eraseIdx_indexOf_of_not_mem {α : Type} [DecidableEq α] {f : α}
    {l : List α} (h : f ∉ l) : l.eraseIdx (l.indexOf f) = l := by
  apply List.eraseIdx_of_length_le
  exact le_of_eq (List.indexOf_eq_length.mpr h).symm

/-! ### Claims -/

/-- C2: for every call to a resolver where `newSet` is empty or `missingSet`
is empty, the result is exactly `{created: newSet, deleted: missingSet,
renamed: [], moved: []}` (`moved` omitted for the flat categories) and the
oracle is never invoked (the prompt log is empty). -/
theorem c2_fast_path :
    (∀ (o : OracleWS) (newItems missingItems : List NamedWithSchema)
        (ent : String),
        newItems = [] ∨ missingItems = [] →
        promptNamedWithSchemasConflict o newItems missingItems ent =
          (some ⟨newItems, [], [], missingItems⟩, []))
  ∧ (∀ (o : OracleN) (tn : String) (newColumns missingColumns : List Named),
        newColumns = [] ∨ missingColumns = [] →
        promptColumnsConflicts o tn newColumns missingColumns =
          (some ⟨newColumns, [], missingColumns⟩, []))
  ∧ (∀ (o : OracleN) (newSchemas missingSchemas : List Named),
        newSchemas = [] ∨ missingSchemas = [] →
        promptSchemasConflict o newSchemas missingSchemas =
          (some ⟨newSchemas, [], missingSchemas⟩, [])) := by
  refine ⟨?_, ?_, ?_⟩
  · rintro o news miss ent (rfl | rfl) <;> simp [promptNamedWithSchemasConflict]
  · rintro o tn news miss (rfl | rfl) <;> simp [promptColumnsConflicts]
  · rintro o news miss (rfl | rfl) <;> simp [promptSchemasConflict]

/-- Witness for `c2_fast_path`: an empty `newSet` against one missing table is
classified as a pure deletion with no prompt. -/
theorem c2_fast_path_witness :
    (([] : List NamedWithSchema) = [] ∨
      [(⟨0, "m", "s"⟩ : NamedWithSchema)] = []) ∧
    promptNamedWithSchemasConflict (fun _ _ => Answer.create) []
        [⟨0, "m", "s"⟩] ("table") =
      (some ⟨[], [], [], [⟨0, "m", "s"⟩]⟩, []) :=
  ⟨Or.inl rfl,
    c2_fast_path.1 (fun _ _ => Answer.create) [] [⟨0, "m", "s"⟩] ("table")
      (Or.inl rfl)⟩

/-- C7: `writeResult` with an empty `sqlStatements` list and kind normal
(type `'none'`) creates no migration unit directory, no snapshot file and no
statement file, and reports the no-op "no changes" outcome instead. -/
theorem c7_noop_write (cur meta tag : String) (breakpoints bundle : Bool) :
    (writeResult cur meta tag [] breakpoints bundle MigType.none').noChanges
        = true ∧
    (writeResult cur meta tag [] breakpoints bundle MigType.none').unitDir
        = none ∧
    (writeResult cur meta tag [] breakpoints bundle MigType.none').snapshotFile
        = none ∧
    (writeResult cur meta tag [] breakpoints bundle MigType.none').sqlFile
        = none := by
  simp [writeResult]

/-- C9: an abort answer at any prompt makes the resolver loop stop
immediately with the non-zero-exit outcome (`none`), issuing no further
prompt, and the pipeline then writes no migration unit. -/
theorem c9_abort :
    (∀ (o : OracleWS) (c : NamedWithSchema) (lm rest : List NamedWithSchema),
        o c lm = Answer.abort → nwsGo o (c :: rest) lm = (none, [(c, lm)]))
  ∧ (∀ (o : OracleN) (c : Named) (lm rest : List Named),
        o c lm = Answer.abort → flatGo o (c :: rest) lm = (none, [(c, lm)]))
  ∧ (∀ (cur meta tag : String) (bp bd : Bool) (ty : MigType),
        migratePipeline none cur meta tag bp bd ty = none) := by
  refine ⟨?_, ?_, ?_⟩
  · intro o c lm rest h
    exact nwsGo_cons_abort rest h
  · intro o c lm rest h
    exact flatGo_cons_abort rest h
  · intro cur meta tag bp bd ty
    rfl

/-- Witness for `c9_abort`: an always-aborting oracle stops a two-candidate
run at the very first prompt. -/
theorem c9_abort_witness :
    ((fun _ _ => Answer.abort : OracleWS) ⟨0, "t", "public"⟩
        [⟨2, "u", "public"⟩] = Answer.abort) ∧
    nwsGo (fun _ _ => Answer.abort) [⟨0, "t", "public"⟩, ⟨1, "v", "public"⟩]
        [⟨2, "u", "public"⟩] =
      (none, [(⟨0, "t", "public"⟩, [⟨2, "u", "public"⟩])]) :=
  ⟨rfl,
    c9_abort.1 (fun _ _ => Answer.abort) ⟨0, "t", "public"⟩ [⟨2, "u", "public"⟩]
      [⟨1, "v", "public"⟩] rfl⟩

/-- C1 counterexample: one new table `{name "a", schema "s1"}` against one
missing table `{name "a", schema "s2"}`, with the (offered, non-abort) oracle
answer "rename from the missing table".  The pair has equal names, so the
source records it in `moved` only: `created` and `renamed` both stay empty and
`|created| + |renamed| = 0 ≠ 1 = |newSet|` (and likewise for the missing
side), refuting the claimed invariant. -/
theorem c1_counterexample :
    ((promptNamedWithSchemasConflict (fun _ _ => Answer.rename ⟨1, "a", "s2"⟩)
        [⟨0, "a", "s1"⟩] [⟨1, "a", "s2"⟩] ("table")).1.map
      (fun r => (r.created.length + r.renamed.length,
        r.deleted.length + r.renamed.length))) ≠ some (1, 1) := by
  decide

/-- C6 counterexample: a rename answer pairing missing `{name "x", schema ""}`
with candidate `{name "x", schema "public"}`.  The two are namespace-equal
after `|| 'public'` normalisation, yet the source compares the raw strings
(`"" !== "public"`) and does produce a `moved` entry (with both sides
normalised to `"public"`), refuting the claim that none is produced. -/
theorem c6_counterexample :
    ((promptNamedWithSchemasConflict (fun _ _ => Answer.rename ⟨1, "x", ""⟩)
        [⟨0, "x", "public"⟩] [⟨1, "x", ""⟩] ("table")).1.map
      (fun r => r.moved)) = some [⟨"x", "public", "public"⟩] := by
  decide

/-- C10 counterexample: the oracle returns a `from` object that is value-equal
to the only pool entry but not referentially identical (different `objId`).
`indexOf` misses, so the pool is unchanged and the entity ends up in
`deleted`; but because the impostor's name equals the candidate's name,
`promptNamedWithSchemasConflict` records the pair in neither `renamed` nor
`moved` — the claim's "the pair is still recorded as renamed" fails for this
resolver. -/
theorem c10_counterexample :
    (promptNamedWithSchemasConflict (fun _ _ => Answer.rename ⟨2, "a", "s"⟩)
        [⟨0, "a", "s"⟩] [⟨1, "a", "s"⟩] ("table")).1 =
      some ⟨[], [], [], [⟨1, "a", "s"⟩]⟩ := by
  decide

/-- C8 counterexample: a unit store with three valid unit directories and one
directory (`not_a_timestamp`) whose name does not parse as a 14-digit
timestamp tag.  The journal builder does not fail: it returns a four-entry
manifest that includes the malformed entry at its listing position with a
`NaN` (`none`) timestamp, refuting the claim that it fails with an
`UnparseableUnitTag` error rather than returning such a manifest. -/
theorem c8_counterexample :
    embeddedMigrations [("20240101120000_init", true),
        ("20240101120500_second", true), ("20240102090000_third", true),
        ("not_a_timestamp", true)] =
      [⟨0, some 1704110400000⟩, ⟨1, some 1704110700000⟩,
       ⟨2, some 1704186000000⟩, ⟨3, none⟩] := by
  decide

/-- C3: at any decision point of `promptNamedWithSchemasConflict`'s loop, a
rename answer pairing missing `f` with candidate `c` where the names agree
but the schemas differ contributes a `moved` entry and no `renamed` entry,
and one where the names differ but the schemas agree contributes a `renamed`
entry and no `moved` entry (`r` is the result of the run from this decision
on, `r1` the result of the continuation after it). -/
theorem c3_rename_vs_move (o : OracleWS) (c : NamedWithSchema)
    (lm rest : List NamedWithSchema) (f : NamedWithSchema) (r r1 : NwsRes)
    (h : o c lm = Answer.rename f)
    (hfull : (nwsGo o (c :: rest) lm).1 = some r)
    (hrest : (nwsGo o rest (lm.eraseIdx (lm.indexOf f))).1 = some r1) :
    (f.name = c.name ∧ f.schema ≠ c.schema →
        r.moved = ⟨f.name, normSchema f.schema, normSchema c.schema⟩ :: r1.moved ∧
        r.renamed = r1.renamed)
  ∧ (f.name ≠ c.name ∧ f.schema = c.schema →
        r.renamed = (f, c) :: r1.renamed ∧ r.moved = r1.moved) := by
  rw [nwsGo_cons_rename rest h] at hfull
  simp only [hrest, Option.map_some'] at hfull
  obtain rfl : nwsRenameUpd f c r1 = r := by
    exact Option.some.inj hfull
  constructor
  · rintro ⟨h1, h2⟩
    rw [nwsRenameUpd_moved, nwsRenameUpd_renamed]
    simp [h1, h2]
  · rintro ⟨h1, h2⟩
    rw [nwsRenameUpd_moved, nwsRenameUpd_renamed]
    simp [h1, h2]

/-- Witness for `c3_rename_vs_move`: candidate `{x, s1}`, pool `[{x, s2}]`,
rename answer; same name and different schema yields the moved entry and no
renamed entry. -/
theorem c3_rename_vs_move_witness :
    ((fun _ _ => Answer.rename ⟨1, "x", "s2"⟩ : OracleWS) ⟨0, "x", "s1"⟩
        [⟨1, "x", "s2"⟩] = Answer.rename ⟨1, "x", "s2"⟩) ∧
    ((⟨[], [], [⟨"x", "s2", "s1"⟩], []⟩ : NwsRes).moved =
        ⟨"x", "s2", "s1"⟩ :: (⟨[], [], [], []⟩ : NwsRes).moved ∧
      (⟨[], [], [⟨"x", "s2", "s1"⟩], []⟩ : NwsRes).renamed =
        (⟨[], [], [], []⟩ : NwsRes).renamed) :=
  ⟨rfl,
    (c3_rename_vs_move (fun _ _ => Answer.rename ⟨1, "x", "s2"⟩) ⟨0, "x", "s1"⟩
        [⟨1, "x", "s2"⟩] [] ⟨1, "x", "s2"⟩ ⟨[], [], [⟨"x", "s2", "s1"⟩], []⟩
        ⟨[], [], [], []⟩ rfl (by decide) (by decide)).1 ⟨rfl, by decide⟩⟩

/-- C6 amended: at any rename decision of `promptNamedWithSchemasConflict`,
a `moved` entry for the pair is produced precisely when the raw (pre-
normalisation) `schema` strings differ; when produced, its `schemaFrom` and
`schemaTo` are the `|| 'public'` normalisations of the two raw strings.  In
particular an absent/empty `schema` against an explicit `'public'` does
produce a (degenerate) `moved` entry. -/
theorem c6_amended (o : OracleWS) (c : NamedWithSchema)
    (lm rest : List NamedWithSchema) (f : NamedWithSchema) (r r1 : NwsRes)
    (h : o c lm = Answer.rename f)
    (hfull : (nwsGo o (c :: rest) lm).1 = some r)
    (hrest : (nwsGo o rest (lm.eraseIdx (lm.indexOf f))).1 = some r1) :
    r.moved =
      (if f.schema = c.schema then []
        else [(⟨f.name, normSchema f.schema, normSchema c.schema⟩ : MovedRec)])
        ++ r1.moved := by
  rw [nwsGo_cons_rename rest h] at hfull
  simp only [hrest, Option.map_some'] at hfull
  obtain rfl : nwsRenameUpd f c r1 = r := Option.some.inj hfull
  rw [nwsRenameUpd_moved]
  by_cases hs : f.schema = c.schema <;> simp [hs]

/-- Witness for `c6_amended`: missing `{x, ""}` renamed to candidate
`{x, "public"}` produces the degenerate moved entry
`{x, "public", "public"}`. -/
theorem c6_amended_witness :
    ((fun _ _ => Answer.rename ⟨1, "x", ""⟩ : OracleWS) ⟨0, "x", "public"⟩
        [⟨1, "x", ""⟩] = Answer.rename ⟨1, "x", ""⟩) ∧
    (⟨[], [], [⟨"x", "public", "public"⟩], []⟩ : NwsRes).moved =
      (if ("" : String) = "public" then []
        else [(⟨"x", normSchema (""), normSchema ("public")⟩ : MovedRec)])
        ++ (⟨[], [], [], []⟩ : NwsRes).moved :=
  ⟨rfl,
    c6_amended (fun _ _ => Answer.rename ⟨1, "x", ""⟩) ⟨0, "x", "public"⟩
      [⟨1, "x", ""⟩] [] ⟨1, "x", ""⟩ ⟨[], [], [⟨"x", "public", "public"⟩], []⟩
      ⟨[], [], [], []⟩ rfl (by decide) (by decide)⟩

/-- C10 amended: pool removal relies on referential identity via
`indexOf`/`===`.  (1) In the flat resolvers, a rename answer whose `from` is
not one of the pool's objects leaves the pool unchanged while still recording
the pair in `renamed`, so the unremoved entity is additionally reported as
`deleted` at the end.  (2) In `promptNamedWithSchemasConflict` the same
no-removal happens, but a value-equal impostor (same name and schema) is
recorded in neither `renamed` nor `moved`; the entity is still reported as
`deleted`.  (3) The no-removal branch is unreachable when the oracle returns
one of the offered option objects: then exactly one pool element is
removed. -/
theorem c10_amended :
    (∀ (o : OracleN) (c : Named) (lm : List Named) (f : Named),
        o c lm = Answer.rename f → f ∉ lm →
        flatGo o [c] lm = (some ⟨[], [(f, c)], lm⟩, [(c, lm)]))
  ∧ (∀ (o : OracleWS) (c : NamedWithSchema) (lm : List NamedWithSchema)
        (f : NamedWithSchema),
        o c lm = Answer.rename f → f ∉ lm →
        f.name = c.name → f.schema = c.schema →
        nwsGo o [c] lm = (some ⟨[], [], [], lm⟩, [(c, lm)]))
  ∧ (∀ (f : Named) (lm : List Named), f ∈ lm →
        (lm.eraseIdx (lm.indexOf f)).length + 1 = lm.length) := by
  refine ⟨?_, ?_, ?_⟩
  · intro o c lm f h hnm
    rw [flatGo_cons_rename [] h, eraseIdx_indexOf_of_not_mem hnm]
    rfl
  · intro o c lm f h hnm h1 h2
    rw [nwsGo_cons_rename [] h, eraseIdx_indexOf_of_not_mem hnm]
    simp [nwsGo_nil, nwsRenameUpd, h1, h2]
  · intro f lm h
    rw [List.eraseIdx_indexOf_eq_erase]
    exact List.length_erase_add_one h

/-- Witness for `c10_amended`: an impostor `from` object (fresh `objId 5`,
value-equal in name to the pool entry with `objId 1`) is recorded as renamed
by the flat loop while the pool entry survives into `deleted`. -/
theorem c10_amended_witness :
    ((fun _ _ => Answer.rename ⟨5, "d"⟩ : OracleN) ⟨0, "c"⟩ [⟨1, "d"⟩] =
        Answer.rename ⟨5, "d"⟩) ∧
    ((⟨5, "d"⟩ : Named) ∉ [(⟨1, "d"⟩ : Named)]) ∧
    flatGo (fun _ _ => Answer.rename ⟨5, "d"⟩) [⟨0, "c"⟩] [⟨1, "d"⟩] =
      (some ⟨[], [(⟨5, "d"⟩, ⟨0, "c"⟩)], [⟨1, "d"⟩]⟩,
       [(⟨0, "c"⟩, [⟨1, "d"⟩])]) :=
  ⟨rfl, by decide,
    c10_amended.1 (fun _ _ => Answer.rename ⟨5, "d"⟩) ⟨0, "c"⟩ [⟨1, "d"⟩]
      ⟨5, "d"⟩ rfl (by decide)⟩

/-- Counting invariant of the namespaced loop: with an offered-options,
non-aborting oracle, each processed candidate lands in `created` or is
consumed by exactly one rename answer, and the final pool becomes
`deleted`. -/
theorem nwsGo_counts (o : OracleWS) (ho : OfferedWS o) (hna : NoAbortWS o) :
    ∀ (news lm : List NamedWithSchema),
      ∃ r log, nwsGo o news lm = (some r, log) ∧
        r.created.length + renCount o log = news.length ∧
        r.deleted.length + renCount o log = lm.length ∧
        r.renamed.length ≤ renCount o log := by
  intro news
  induction news with
  | nil =>
    intro lm
    exact ⟨⟨[], [], [], lm⟩, [], rfl, by simp [renCount_nil],
      by simp [renCount_nil], by simp [renCount_nil]⟩
  | cons c rest ih =>
    intro lm
    cases hoc : o c lm with
    | abort => exact absurd hoc (hna c lm)
    | create =>
      obtain ⟨r1, log1, heq, h1, h2, h3⟩ := ih lm
      have hr : renCount o ((c, lm) :: log1) = renCount o log1 := by
        simp [renCount_cons, hoc, Answer.isRename]
      refine ⟨{ r1 with created := c :: r1.created }, (c, lm) :: log1, ?_, ?_, ?_, ?_⟩
      · rw [nwsGo_cons_create rest hoc, heq]
        rfl
      · rw [hr]
        simp only [List.length_cons]
        omega
      · rw [hr]
        simpa using h2
      · rw [hr]
        simpa using h3
    | rename f =>
      have hmem := ho c lm f hoc
      have hlen : (lm.eraseIdx (lm.indexOf f)).length + 1 = lm.length := by
        rw [List.eraseIdx_indexOf_eq_erase]
        exact List.length_erase_add_one hmem
      obtain ⟨r1, log1, heq, h1, h2, h3⟩ := ih (lm.eraseIdx (lm.indexOf f))
      have hr : renCount o ((c, lm) :: log1) = renCount o log1 + 1 := by
        simp [renCount_cons, hoc, Answer.isRename, Nat.add_comm]
      refine ⟨nwsRenameUpd f c r1, (c, lm) :: log1, ?_, ?_, ?_, ?_⟩
      · rw [nwsGo_cons_rename rest hoc, heq]
        rfl
      · rw [nwsRenameUpd_created, hr]
        simp only [List.length_cons]
        omega
      · rw [nwsRenameUpd_deleted, hr]
        omega
      · rw [nwsRenameUpd_renamed, hr]
        split
        · simp only [List.length_cons]
          omega
        · omega

/-- Counting invariant of the flat loop: additionally, every rename answer is
recorded in `renamed`, so `|renamed|` equals the number of rename answers. -/
theorem flatGo_counts (o : OracleN) (ho : OfferedN o) (hna : NoAbortN o) :
    ∀ (news lm : List Named),
      ∃ r log, flatGo o news lm = (some r, log) ∧
        r.renamed.length = renCount o log ∧
        r.created.length + r.renamed.length = news.length ∧
        r.deleted.length + r.renamed.length = lm.length := by
  intro news
  induction news with
  | nil =>
    intro lm
    exact ⟨⟨[], [], lm⟩, [], rfl, by simp [renCount_nil], by simp, by simp⟩
  | cons c rest ih =>
    intro lm
    cases hoc : o c lm with
    | abort => exact absurd hoc (hna c lm)
    | create =>
      obtain ⟨r1, log1, heq, h1, h2, h3⟩ := ih lm
      have hr : renCount o ((c, lm) :: log1) = renCount o log1 := by
        simp [renCount_cons, hoc, Answer.isRename]
      refine ⟨{ r1 with created := c :: r1.created }, (c, lm) :: log1, ?_, ?_, ?_, ?_⟩
      · rw [flatGo_cons_create rest hoc, heq]
        rfl
      · rw [hr]
        simpa using h1
      · simp only [List.length_cons]
        omega
      · simpa using h3
    | rename f =>
      have hmem := ho c lm f hoc
      have hlen : (lm.eraseIdx (lm.indexOf f)).length + 1 = lm.length := by
        rw [List.eraseIdx_indexOf_eq_erase]
        exact List.length_erase_add_one hmem
      obtain ⟨r1, log1, heq, h1, h2, h3⟩ := ih (lm.eraseIdx (lm.indexOf f))
      have hr : renCount o ((c, lm) :: log1) = renCount o log1 + 1 := by
        simp [renCount_cons, hoc, Answer.isRename, Nat.add_comm]
      refine ⟨{ r1 with renamed := (f, c) :: r1.renamed }, (c, lm) :: log1,
        ?_, ?_, ?_, ?_⟩
      · rw [flatGo_cons_rename rest hoc, heq]
        rfl
      · rw [hr]
        simp only [List.length_cons]
        omega
      · simp only [List.length_cons]
        omega
      · simp only [List.length_cons]
        omega

/-- C1 amended: with non-abort oracle answers chosen from the offered
options, each resolver satisfies `|created| + R = |newSet|` and
`|deleted| + R = |missingSet|`, where `R` is the number of rename answers.
For `promptColumnsConflicts` and `promptSchemasConflict`, `R = |renamed|`, so
the claim's equalities hold as stated there.  For
`promptNamedWithSchemasConflict`, a rename answer is recorded in `renamed`
only when the names differ (a same-name pair lands in `moved` only), so only
`|renamed| ≤ R` holds, and the claim's equalities can fail. -/
theorem c1_amended :
    (∀ (o : OracleWS) (newItems missingItems : List NamedWithSchema)
        (ent : String), OfferedWS o → NoAbortWS o →
        ∃ r, (promptNamedWithSchemasConflict o newItems missingItems ent).1
            = some r ∧
          r.created.length +
            renCount o
              (promptNamedWithSchemasConflict o newItems missingItems ent).2
            = newItems.length ∧
          r.deleted.length +
            renCount o
              (promptNamedWithSchemasConflict o newItems missingItems ent).2
            = missingItems.length ∧
          r.renamed.length ≤
            renCount o
              (promptNamedWithSchemasConflict o newItems missingItems ent).2)
  ∧ (∀ (o : OracleN) (tn : String) (newColumns missingColumns : List Named),
        OfferedN o → NoAbortN o →
        ∃ r, (promptColumnsConflicts o tn newColumns missingColumns).1
            = some r ∧
          r.renamed.length =
            renCount o (promptColumnsConflicts o tn newColumns missingColumns).2 ∧
          r.created.length + r.renamed.length = newColumns.length ∧
          r.deleted.length + r.renamed.length = missingColumns.length)
  ∧ (∀ (o : OracleN) (newSchemas missingSchemas : List Named),
        OfferedN o → NoAbortN o →
        ∃ r, (promptSchemasConflict o newSchemas missingSchemas).1 = some r ∧
          r.renamed.length =
            renCount o (promptSchemasConflict o newSchemas missingSchemas).2 ∧
          r.created.length + r.renamed.length = newSchemas.length ∧
          r.deleted.length + r.renamed.length = missingSchemas.length) := by
  refine ⟨?_, ?_, ?_⟩
  · intro o news miss ent ho hna
    by_cases hc : miss.length = 0 ∨ news.length = 0
    all_goals simp only [List.length_eq_zero] at hc
    · refine ⟨⟨news, [], [], miss⟩, ?_, ?_, ?_, ?_⟩ <;>
        simp [promptNamedWithSchemasConflict, hc, renCount_nil]
    · obtain ⟨r, log, heq, h1, h2, h3⟩ := nwsGo_counts o ho hna news miss
      refine ⟨r, ?_, ?_, ?_, ?_⟩ <;>
        simp [promptNamedWithSchemasConflict, hc, heq, h1, h2, h3]
  · intro o tn news miss ho hna
    by_cases hc : news.length = 0 ∨ miss.length = 0
    all_goals simp only [List.length_eq_zero] at hc
    · refine ⟨⟨news, [], miss⟩, ?_, ?_, ?_, ?_⟩ <;>
        simp [promptColumnsConflicts, hc, renCount_nil]
    · obtain ⟨r, log, heq, h1, h2, h3⟩ := flatGo_counts o ho hna news miss
      refine ⟨r, ?_, ?_, ?_, ?_⟩ <;>
        simp [promptColumnsConflicts, hc, heq, h1, h2, h3] <;> omega
  · intro o news miss ho hna
    by_cases hc : miss.length = 0 ∨ news.length = 0
    all_goals simp only [List.length_eq_zero] at hc
    · refine ⟨⟨news, [], miss⟩, ?_, ?_, ?_, ?_⟩ <;>
        simp [promptSchemasConflict, hc, renCount_nil]
    · obtain ⟨r, log, heq, h1, h2, h3⟩ := flatGo_counts o ho hna news miss
      refine ⟨r, ?_, ?_, ?_, ?_⟩ <;>
        simp [promptSchemasConflict, hc, heq, h1, h2, h3] <;> omega

/-- Witness for `c1_amended`: an always-create oracle over one new and one
missing table. -/
theorem c1_amended_witness :
    OfferedWS (fun _ _ => Answer.create) ∧
    NoAbortWS (fun _ _ => Answer.create) ∧
    (∃ r, (promptNamedWithSchemasConflict (fun _ _ => Answer.create)
        [⟨0, "a", "s"⟩] [⟨1, "b", "s"⟩] ("table")).1 = some r ∧
      r.created.length +
        renCount (fun _ _ => Answer.create)
          (promptNamedWithSchemasConflict (fun _ _ => Answer.create)
            [⟨0, "a", "s"⟩] [⟨1, "b", "s"⟩] ("table")).2
        = [(⟨0, "a", "s"⟩ : NamedWithSchema)].length ∧
      r.deleted.length +
        renCount (fun _ _ => Answer.create)
          (promptNamedWithSchemasConflict (fun _ _ => Answer.create)
            [⟨0, "a", "s"⟩] [⟨1, "b", "s"⟩] ("table")).2
        = [(⟨1, "b", "s"⟩ : NamedWithSchema)].length ∧
      r.renamed.length ≤
        renCount (fun _ _ => Answer.create)
          (promptNamedWithSchemasConflict (fun _ _ => Answer.create)
            [⟨0, "a", "s"⟩] [⟨1, "b", "s"⟩] ("table")).2) :=
  by
  have ho : OfferedWS (fun _ _ => Answer.create) := by
    intro c pool f h
    simp at h
  have hna : NoAbortWS (fun _ _ => Answer.create) := by
    intro c pool h
    simp at h
  exact ⟨ho, hna,
    c1_amended.1 (fun _ _ => Answer.create) [⟨0, "a", "s"⟩] [⟨1, "b", "s"⟩]
      ("table") ho hna⟩

/-- In a loop run starting from a pool not containing `X`, no issued prompt
ever offers `X`: pools only shrink. -/
theorem nwsGo_pools_not_mem (o : OracleWS) (X : NamedWithSchema) :
    ∀ (news lm : List NamedWithSchema), X ∉ lm →
      ∀ p ∈ (nwsGo o news lm).2, X ∉ p.2 := by
  intro news
  induction news with
  | nil =>
    intro lm hX p hp
    simp [nwsGo_nil] at hp
  | cons c rest ih =>
    intro lm hX p hp
    cases hoc : o c lm with
    | abort =>
      rw [nwsGo_cons_abort rest hoc] at hp
      simp only [List.mem_singleton] at hp
      subst hp
      exact hX
    | create =>
      rw [nwsGo_cons_create rest hoc] at hp
      simp only [List.mem_cons] at hp
      rcases hp with rfl | hp
      · exact hX
      · exact ih lm hX p hp
    | rename f =>
      rw [nwsGo_cons_rename rest hoc] at hp
      simp only [List.mem_cons] at hp
      rcases hp with rfl | hp
      · exact hX
      · refine ih _ ?_ p hp
        intro hmem
        exact hX (List.eraseIdx_subset _ _ hmem)

/-- `nwsGo_pools_not_mem` for the flat loop. -/
theorem flatGo_pools_not_mem (o : OracleN) (X : Named) :
    ∀ (news lm : List Named), X ∉ lm →
      ∀ p ∈ (flatGo o news lm).2, X ∉ p.2 := by
  intro news
  induction news with
  | nil =>
    intro lm hX p hp
    simp [flatGo_nil] at hp
  | cons c rest ih =>
    intro lm hX p hp
    cases hoc : o c lm with
    | abort =>
      rw [flatGo_cons_abort rest hoc] at hp
      simp only [List.mem_singleton] at hp
      subst hp
      exact hX
    | create =>
      rw [flatGo_cons_create rest hoc] at hp
      simp only [List.mem_cons] at hp
      rcases hp with rfl | hp
      · exact hX
      · exact ih lm hX p hp
    | rename f =>
      rw [flatGo_cons_rename rest hoc] at hp
      simp only [List.mem_cons] at hp
      rcases hp with rfl | hp
      · exact hX
      · refine ih _ ?_ p hp
        intro hmem
        exact hX (List.eraseIdx_subset _ _ hmem)

/-- C4: once a rename answer consumes a missing entity `X` (over a
duplicate-free pool), `X` is removed from the unconsumed pool and is never
among the rename options offered at any later prompt of the same call, so it
can be matched at most once. -/
theorem c4_consumed_once :
    (∀ (o : OracleWS), OfferedWS o →
      ∀ (c : NamedWithSchema) (lm rest : List NamedWithSchema)
        (X : NamedWithSchema), lm.Nodup → o c lm = Answer.rename X →
        X ∉ lm.eraseIdx (lm.indexOf X) ∧
        ∀ p ∈ (nwsGo o rest (lm.eraseIdx (lm.indexOf X))).2, X ∉ p.2)
  ∧ (∀ (o : OracleN), OfferedN o →
      ∀ (c : Named) (lm rest : List Named) (X : Named),
        lm.Nodup → o c lm = Answer.rename X →
        X ∉ lm.eraseIdx (lm.indexOf X) ∧
        ∀ p ∈ (flatGo o rest (lm.eraseIdx (lm.indexOf X))).2, X ∉ p.2) := by
  constructor
  · intro o ho c lm rest X hnd hoc
    have hout : X ∉ lm.eraseIdx (lm.indexOf X) := by
      rw [List.eraseIdx_indexOf_eq_erase]
      exact hnd.not_mem_erase
    exact ⟨hout, nwsGo_pools_not_mem o X rest _ hout⟩
  · intro o ho c lm rest X hnd hoc
    have hout : X ∉ lm.eraseIdx (lm.indexOf X) := by
      rw [List.eraseIdx_indexOf_eq_erase]
      exact hnd.not_mem_erase
    exact ⟨hout, flatGo_pools_not_mem o X rest _ hout⟩

/-- Witness for `c4_consumed_once`: the first-option oracle consumes the only
missing table; the later candidate is prompted with an empty pool. -/
theorem c4_consumed_once_witness :
    OfferedWS oracleHeadWS ∧
    ([(⟨1, "m", "s"⟩ : NamedWithSchema)] : List NamedWithSchema).Nodup ∧
    oracleHeadWS ⟨0, "a", "s"⟩ [⟨1, "m", "s"⟩] = Answer.rename ⟨1, "m", "s"⟩ ∧
    ((⟨1, "m", "s"⟩ : NamedWithSchema) ∉
        ([⟨1, "m", "s"⟩] : List NamedWithSchema).eraseIdx
          (([⟨1, "m", "s"⟩] : List NamedWithSchema).indexOf ⟨1, "m", "s"⟩) ∧
      ∀ p ∈ (nwsGo oracleHeadWS [⟨2, "b", "s"⟩]
          (([⟨1, "m", "s"⟩] : List NamedWithSchema).eraseIdx
            (([⟨1, "m", "s"⟩] : List NamedWithSchema).indexOf ⟨1, "m", "s"⟩))).2,
        (⟨1, "m", "s"⟩ : NamedWithSchema) ∉ p.2) := by
  have ho : OfferedWS oracleHeadWS := by
    intro c pool f h
    cases pool with
    | nil => simp [oracleHeadWS] at h
    | cons a t =>
      simp only [oracleHeadWS, Answer.rename.injEq] at h
      subst h
      exact List.mem_cons_self _ _
  exact ⟨ho, by decide, rfl,
    c4_consumed_once.1 oracleHeadWS ho ⟨0, "a", "s"⟩ [⟨1, "m", "s"⟩]
      [⟨2, "b", "s"⟩] ⟨1, "m", "s"⟩ (by decide) rfl⟩

/-- The final `deleted` of the namespaced loop consists exactly of the pool
entries never consumed by a rename answer of the run, in pool order. -/
theorem nwsGo_deleted (o : OracleWS) (ho : OfferedWS o) :
    ∀ (news lm : List NamedWithSchema), lm.Nodup →
      ∀ r log, nwsGo o news lm = (some r, log) →
        r.deleted = lm.filter (fun x => !(consumedIn o log x)) := by
  intro news
  induction news with
  | nil =>
    intro lm hnd r log heq
    rw [nwsGo_nil] at heq
    injection heq with h1 h2
    injection h1 with h1
    subst h1
    subst h2
    simp [consumedIn_nil, List.filter_true]
  | cons c rest ih =>
    intro lm hnd r log heq
    cases hoc : o c lm with
    | abort =>
      rw [nwsGo_cons_abort rest hoc] at heq
      injection heq with h1 h2
      simp at h1
    | create =>
      rw [nwsGo_cons_create rest hoc] at heq
      rcases hgo : nwsGo o rest lm with ⟨res1, log1⟩
      rw [hgo] at heq
      injection heq with h1 h2
      cases res1 with
      | none => simp at h1
      | some r1 =>
        simp only [Option.map_some'] at h1
        injection h1 with h1
        subst h1
        subst h2
        have hdel := ih lm hnd r1 log1 hgo
        have hcc : ∀ x, consumedIn o ((c, lm) :: log1) x = consumedIn o log1 x :=
          fun x => consumedIn_cons_create log1 x hoc
        simp only [hcc]
        exact hdel
    | rename f =>
      rw [nwsGo_cons_rename rest hoc] at heq
      rcases hgo : nwsGo o rest (lm.eraseIdx (lm.indexOf f)) with ⟨res1, log1⟩
      rw [hgo] at heq
      injection heq with h1 h2
      cases res1 with
      | none => simp at h1
      | some r1 =>
        simp only [Option.map_some'] at h1
        injection h1 with h1
        subst h1
        subst h2
        have hnd1 : (lm.eraseIdx (lm.indexOf f)).Nodup := by
          rw [List.eraseIdx_indexOf_eq_erase]
          exact List.Nodup.erase f hnd
        have hdel := ih _ hnd1 r1 log1 hgo
        rw [nwsRenameUpd_deleted, hdel, List.eraseIdx_indexOf_eq_erase,
          List.Nodup.erase_eq_filter hnd f, List.filter_filter]
        refine (List.filter_congr ?_).symm
        intro a ha
        rw [consumedIn_cons_rename log1 a hoc]
        simp only [Bool.not_or]
        rw [Bool.and_comm]
        have hde : decide (f = a) = decide (a = f) := decide_eq_decide.mpr eq_comm
        have hdd : (a != f) = !(decide (f = a)) := by
          rw [hde]
          rfl
        rw [hdd]

/-- `nwsGo_deleted` for the flat loop. -/
theorem flatGo_deleted (o : OracleN) (ho : OfferedN o) :
    ∀ (news lm : List Named), lm.Nodup →
      ∀ r log, flatGo o news lm = (some r, log) →
        r.deleted = lm.filter (fun x => !(consumedIn o log x)) := by
  intro news
  induction news with
  | nil =>
    intro lm hnd r log heq
    rw [flatGo_nil] at heq
    injection heq with h1 h2
    injection h1 with h1
    subst h1
    subst h2
    simp [consumedIn_nil, List.filter_true]
  | cons c rest ih =>
    intro lm hnd r log heq
    cases hoc : o c lm with
    | abort =>
      rw [flatGo_cons_abort rest hoc] at heq
      injection heq with h1 h2
      simp at h1
    | create =>
      rw [flatGo_cons_create rest hoc] at heq
      rcases hgo : flatGo o rest lm with ⟨res1, log1⟩
      rw [hgo] at heq
      injection heq with h1 h2
      cases res1 with
      | none => simp at h1
      | some r1 =>
        simp only [Option.map_some'] at h1
        injection h1 with h1
        subst h1
        subst h2
        have hdel := ih lm hnd r1 log1 hgo
        have hcc : ∀ x, consumedIn o ((c, lm) :: log1) x = consumedIn o log1 x :=
          fun x => consumedIn_cons_create log1 x hoc
        simp only [hcc]
        exact hdel
    | rename f =>
      rw [flatGo_cons_rename rest hoc] at heq
      rcases hgo : flatGo o rest (lm.eraseIdx (lm.indexOf f)) with ⟨res1, log1⟩
      rw [hgo] at heq
      injection heq with h1 h2
      cases res1 with
      | none => simp at h1
      | some r1 =>
        simp only [Option.map_some'] at h1
        injection h1 with h1
        subst h1
        subst h2
        have hnd1 : (lm.eraseIdx (lm.indexOf f)).Nodup := by
          rw [List.eraseIdx_indexOf_eq_erase]
          exact List.Nodup.erase f hnd
        have hdel := ih _ hnd1 r1 log1 hgo
        show r1.deleted = _
        rw [hdel, List.eraseIdx_indexOf_eq_erase,
          List.Nodup.erase_eq_filter hnd f, List.filter_filter]
        refine (List.filter_congr ?_).symm
        intro a ha
        rw [consumedIn_cons_rename log1 a hoc]
        simp only [Bool.not_or]
        rw [Bool.and_comm]
        have hde : decide (f = a) = decide (a = f) := decide_eq_decide.mpr eq_comm
        have hdd : (a != f) = !(decide (f = a)) := by
          rw [hde]
          rfl
        rw [hdd]

/-- C5: for every resolver call reaching the general path with answers chosen
from the offered options (over a duplicate-free missing set), the `deleted`
output equals exactly the missing entities never consumed by a rename answer,
in their original relative order (a `filter` of the input list). -/
theorem c5_deleted :
    (∀ (o : OracleWS) (newItems missingItems : List NamedWithSchema)
        (ent : String) (r : NwsRes), OfferedWS o → missingItems.Nodup →
        (promptNamedWithSchemasConflict o newItems missingItems ent).1 = some r →
        r.deleted = missingItems.filter (fun x =>
          !(consumedIn o
            (promptNamedWithSchemasConflict o newItems missingItems ent).2 x)))
  ∧ (∀ (o : OracleN) (tn : String) (newColumns missingColumns : List Named)
        (r : FlatRes), OfferedN o → missingColumns.Nodup →
        (promptColumnsConflicts o tn newColumns missingColumns).1 = some r →
        r.deleted = missingColumns.filter (fun x =>
          !(consumedIn o
            (promptColumnsConflicts o tn newColumns missingColumns).2 x)))
  ∧ (∀ (o : OracleN) (newSchemas missingSchemas : List Named)
        (r : FlatRes), OfferedN o → missingSchemas.Nodup →
        (promptSchemasConflict o newSchemas missingSchemas).1 = some r →
        r.deleted = missingSchemas.filter (fun x =>
          !(consumedIn o
            (promptSchemasConflict o newSchemas missingSchemas).2 x))) := by
  refine ⟨?_, ?_, ?_⟩
  · intro o news miss ent r ho hnd hr
    by_cases hc : miss.length = 0 ∨ news.length = 0
    · rw [promptNamedWithSchemasConflict, if_pos hc] at hr ⊢
      simp only [Option.some.injEq] at hr
      subst hr
      simp [consumedIn_nil, List.filter_true]
    · rw [promptNamedWithSchemasConflict, if_neg hc] at hr ⊢
      rcases hgo : nwsGo o news miss with ⟨res1, log1⟩
      rw [hgo] at hr
      cases res1 with
      | none => simp at hr
      | some r1 =>
        simp only [Option.some.injEq] at hr
        subst hr
        exact nwsGo_deleted o ho news miss hnd r1 log1 hgo
  · intro o tn news miss r ho hnd hr
    by_cases hc : news.length = 0 ∨ miss.length = 0
    · rw [promptColumnsConflicts, if_pos hc] at hr ⊢
      simp only [Option.some.injEq] at hr
      subst hr
      simp [consumedIn_nil, List.filter_true]
    · rw [promptColumnsConflicts, if_neg hc] at hr ⊢
      rcases hgo : flatGo o news miss with ⟨res1, log1⟩
      rw [hgo] at hr
      cases res1 with
      | none => simp at hr
      | some r1 =>
        simp only [Option.some.injEq] at hr
        subst hr
        exact flatGo_deleted o ho news miss hnd r1 log1 hgo
  · intro o news miss r ho hnd hr
    by_cases hc : miss.length = 0 ∨ news.length = 0
    · rw [promptSchemasConflict, if_pos hc] at hr ⊢
      simp only [Option.some.injEq] at hr
      subst hr
      simp [consumedIn_nil, List.filter_true]
    · rw [promptSchemasConflict, if_neg hc] at hr ⊢
      rcases hgo : flatGo o news miss with ⟨res1, log1⟩
      rw [hgo] at hr
      cases res1 with
      | none => simp at hr
      | some r1 =>
        simp only [Option.some.injEq] at hr
        subst hr
        exact flatGo_deleted o ho news miss hnd r1 log1 hgo

/-- Witness for `c5_deleted`: the first-option oracle consumes `{m, s}`;
`{n, s}` alone survives into `deleted`, in input order. -/
theorem c5_deleted_witness :
    OfferedWS oracleHeadWS ∧
    ([(⟨1, "m", "s"⟩ : NamedWithSchema), ⟨2, "n", "s"⟩] : List NamedWithSchema).Nodup ∧
    (promptNamedWithSchemasConflict oracleHeadWS [⟨0, "a", "s"⟩]
        [⟨1, "m", "s"⟩, ⟨2, "n", "s"⟩] ("table")).1 =
      some ⟨[], [(⟨1, "m", "s"⟩, ⟨0, "a", "s"⟩)], [], [⟨2, "n", "s"⟩]⟩ ∧
    (⟨[], [(⟨1, "m", "s"⟩, ⟨0, "a", "s"⟩)], [], [⟨2, "n", "s"⟩]⟩ : NwsRes).deleted =
      ([⟨1, "m", "s"⟩, ⟨2, "n", "s"⟩] : List NamedWithSchema).filter (fun x =>
        !(consumedIn oracleHeadWS
          (promptNamedWithSchemasConflict oracleHeadWS [⟨0, "a", "s"⟩]
            [⟨1, "m", "s"⟩, ⟨2, "n", "s"⟩] ("table")).2 x)) := by
  have ho : OfferedWS oracleHeadWS := by
    intro c pool f h
    cases pool with
    | nil => simp [oracleHeadWS] at h
    | cons a t =>
      simp only [oracleHeadWS, Answer.rename.injEq] at h
      subst h
      exact List.mem_cons_self _ _
  exact ⟨ho, by decide, by decide,
    c5_deleted.1 oracleHeadWS [⟨0, "a", "s"⟩] [⟨1, "m", "s"⟩, ⟨2, "n", "s"⟩]
      ("table") ⟨[], [(⟨1, "m", "s"⟩, ⟨0, "a", "s"⟩)], [], [⟨2, "n", "s"⟩]⟩
      ho (by decide) (by decide)⟩

/-- C8 amended: the journal builder accepts every directory: it emits exactly
one entry per migration folder, in listing order, and a folder whose
14-character name prefix does not parse as a timestamp yields the entry
`{idx, NaN}` (modelled `none`) at its position — no error, nothing skipped or
reordered. -/
theorem c8_amended (listing : List (String × Bool)) (i : Nat)
    (h : i < (migrationFolders listing).length)
    (hbad : timestampToMillis
        (strSlice ((migrationFolders listing).get ⟨i, h⟩) 0 14) = none) :
    (embeddedMigrations listing).length = (migrationFolders listing).length ∧
    (embeddedMigrations listing).get ⟨i, by simpa [embeddedMigrations] using h⟩
      = ⟨i, none⟩ := by
  refine ⟨by simp [embeddedMigrations], ?_⟩
  simp only [embeddedMigrations, List.get_eq_getElem, List.getElem_map,
    List.getElem_enum, JEntry.mk.injEq]
  exact ⟨trivial, hbad⟩

/-- Witness for `c8_amended` at the four-directory store whose last directory
name is unparseable. -/
theorem c8_amended_witness :
    (3 < (migrationFolders [("20240101120000_init", true),
        ("20240101120500_second", true), ("20240102090000_third", true),
        ("not_a_timestamp", true)]).length) ∧
    timestampToMillis (strSlice ((migrationFolders [("20240101120000_init", true),
        ("20240101120500_second", true), ("20240102090000_third", true),
        ("not_a_timestamp", true)]).get ⟨3, by decide⟩) 0 14) = none ∧
    ((embeddedMigrations [("20240101120000_init", true),
        ("20240101120500_second", true), ("20240102090000_third", true),
        ("not_a_timestamp", true)]).length =
      (migrationFolders [("20240101120000_init", true),
        ("20240101120500_second", true), ("20240102090000_third", true),
        ("not_a_timestamp", true)]).length ∧
    (embeddedMigrations [("20240101120000_init", true),
        ("20240101120500_second", true), ("20240102090000_third", true),
        ("not_a_timestamp", true)]).get ⟨3, by decide⟩ = ⟨3, none⟩) :=
  ⟨by decide, by decide,
    c8_amended [("20240101120000_init", true), ("20240101120500_second", true),
      ("20240102090000_third", true), ("not_a_timestamp", true)] 3 (by decide)
      (by decide)⟩
